import Mathlib

/-!
Verification of the PXM tile-map and PXE entity decoders from `src/map.rs`
of doukutsu-rs.

Byte streams are modelled as lists of naturals (each element one byte);
the field readers (`read_exact`, `read_u8`, `read_u16::<LE>`, `read_i16::<LE>`,
`read_u32::<LE>`) consume a prefix of the list and either return the decoded
value together with the remaining bytes or fail. Error values are collapsed
into a small inductive mirroring the conditions the decoders distinguish:
a bad magic tag, an unsupported version byte, and a short read.
-/

namespace Doukutsu

/-- The error conditions of the decoders: `ResourceLoadError("Invalid magic")`,
`ResourceLoadError("Unsupported ... version")` (carrying the version byte), and
the io error produced by a short read. -/
inductive MapError where
  | invalidMagic
  | unsupportedVersion (version : Nat)
  | truncatedData
  deriving DecidableEq, Repr

/-- A byte stream: each element is one byte (0..255). -/
abbrev Bytes := List Nat

/-- `read_exact` into an `n`-byte buffer: returns the first `n` bytes and the
rest of the stream, or fails when fewer than `n` bytes remain. -/
def readExact (n : Nat) (s : Bytes) : Except MapError (Bytes × Bytes) :=
  if n ≤ s.length then .ok (s.take n, s.drop n) else .error .truncatedData

/-- `read_u8`. -/
def read_u8 (s : Bytes) : Except MapError (Nat × Bytes) :=
  match s with
  | b :: rest => .ok (b, rest)
  | [] => .error .truncatedData

/-- `read_u16::<LE>`. -/
def read_u16 (s : Bytes) : Except MapError (Nat × Bytes) :=
  match s with
  | b0 :: b1 :: rest => .ok (b0 + 256 * b1, rest)
  | _ => .error .truncatedData

/-- `read_i16::<LE>`: two's-complement signed 16-bit value. -/
def read_i16 (s : Bytes) : Except MapError (Int × Bytes) :=
  match s with
  | b0 :: b1 :: rest =>
      let v := b0 + 256 * b1
      .ok (if v < 32768 then (v : Int) else (v : Int) - 65536, rest)
  | _ => .error .truncatedData

/-- `read_u32::<LE>`. -/
def read_u32 (s : Bytes) : Except MapError (Nat × Bytes) :=
  match s with
  | b0 :: b1 :: b2 :: b3 :: rest =>
      .ok (b0 + 256 * b1 + 65536 * b2 + 16777216 * b3, rest)
  | _ => .error .truncatedData

/-- `static SUPPORTED_PXM_VERSIONS: [u8; 1] = [0x10];` -/
def SUPPORTED_PXM_VERSIONS : List Nat := [0x10]

/-- `static SUPPORTED_PXE_VERSIONS: [u8; 2] = [0, 0x10];` -/
def SUPPORTED_PXE_VERSIONS : List Nat := [0, 0x10]

/-- The bytes of the literal tag `b"PXM"`. -/
def pxmMagic : Bytes := [0x50, 0x58, 0x4D]

/-- The bytes of the literal tag `b"PXE"`. -/
def pxeMagic : Bytes := [0x50, 0x58, 0x45]

/-- `struct Map`: `attrib` models the fixed array `[u8; 0x100]` as a list that
is 256 long for every constructed value. -/
structure Map where
  width : Nat
  height : Nat
  tiles : Bytes
  attrib : Bytes
  deriving DecidableEq, Repr

/-- The attribute table produced by `attrib_data.read_exact(&mut attrib)` on a
zero-initialised 256-byte buffer, where a short read only logs a warning: the
buffer keeps the bytes that were available and stays zero past them. -/
def attribOf (attrib_data : Bytes) : Bytes :=
  attrib_data.take 256 ++ List.replicate (256 - attrib_data.length) 0

/-- `Map::load_from`: magic `b"PXM"`, version in `SUPPORTED_PXM_VERSIONS`,
little-endian `width` and `height`, then exactly `width * height` tile bytes;
the attribute table is filled from the second stream, short reads tolerated. -/
def Map.load_from (map_data attrib_data : Bytes) : Except MapError Map :=
  match readExact 3 map_data with
  | .error e => .error e
  | .ok (magic, s) =>
    if magic ≠ pxmMagic then .error .invalidMagic
    else
      match read_u8 s with
      | .error e => .error e
      | .ok (version, s) =>
        if ¬ SUPPORTED_PXM_VERSIONS.contains version then
          .error (.unsupportedVersion version)
        else
          match read_u16 s with
          | .error e => .error e
          | .ok (width, s) =>
            match read_u16 s with
            | .error e => .error e
            | .ok (height, s) =>
              match readExact (width * height) s with
              | .error e => .error e
              | .ok (tiles, _) =>
                .ok { width, height, tiles, attrib := attribOf attrib_data }

/-- The modulus of `usize` arithmetic on the common 64-bit target: `2 ^ 64`.
In release builds `usize` multiplication and addition wrap at this modulus
(in debug builds an overflow panics instead); the embedding models the
release semantics. -/
def usizeMod : Nat := 2 ^ 64

/-- `Map::get_attribute`: looks up the tile at the linear index
`self.width * y + x`, computed in wrapping `usize` arithmetic (so the index
is taken modulo `2 ^ 64`; both the multiplication and the addition wrap, and
`(width * y % 2^64 + x) % 2^64 = (width * y + x) % 2^64`), defaulting to
tile 0 when the index is out of bounds of `tiles`, then indexes the attribute
table with it (a byte-sized tile always lies inside the 256-entry table, so
the outer lookup cannot miss on a decoded map). -/
def Map.get_attribute (m : Map) (x y : Nat) : Nat :=
  m.attrib.getD (m.tiles.getD ((m.width * y + x) % usizeMod) 0) 0

/-- `struct NPCData`. -/
structure NPCData where
  id : Nat
  x : Int
  y : Int
  flag_num : Nat
  event_num : Nat
  npc_type : Nat
  flags : Nat
  layer : Nat
  deriving DecidableEq, Repr

/-- One iteration of the record loop in `NPCData::load_from`: six 16-bit
fields, a layer byte only for version `0x10`, and `id := 170 + i as u16`
(wrapping 16-bit arithmetic). -/
def readNPC (version i : Nat) (s : Bytes) : Except MapError (NPCData × Bytes) :=
  match read_i16 s with
  | .error e => .error e
  | .ok (x, s) =>
    match read_i16 s with
    | .error e => .error e
    | .ok (y, s) =>
      match read_u16 s with
      | .error e => .error e
      | .ok (flag_num, s) =>
        match read_u16 s with
        | .error e => .error e
        | .ok (event_num, s) =>
          match read_u16 s with
          | .error e => .error e
          | .ok (npc_type, s) =>
            match read_u16 s with
            | .error e => .error e
            | .ok (flags, s) =>
              match (if version = 0x10 then read_u8 s else .ok (0, s)) with
              | .error e => .error e
              | .ok (layer, s) =>
                .ok ({ id := (170 + i) % 65536, x, y, flag_num, event_num,
                       npc_type, flags, layer }, s)

/-- The record loop of `NPCData::load_from`, reading `count` records starting
at loop index `i`. -/
def readNPCs (version count i : Nat) (s : Bytes) :
    Except MapError (List NPCData × Bytes) :=
  match count with
  | 0 => .ok ([], s)
  | c + 1 =>
    match readNPC version i s with
    | .error e => .error e
    | .ok (npc, s) =>
      match readNPCs version c (i + 1) s with
      | .error e => .error e
      | .ok (npcs, s) => .ok (npc :: npcs, s)

/-- `NPCData::load_from`: magic `b"PXE"`, version in `SUPPORTED_PXE_VERSIONS`,
little-endian 32-bit record count, then `count` records. -/
def NPCData.load_from (data : Bytes) : Except MapError (List NPCData) :=
  match readExact 3 data with
  | .error e => .error e
  | .ok (magic, s) =>
    if magic ≠ pxeMagic then .error .invalidMagic
    else
      match read_u8 s with
      | .error e => .error e
      | .ok (version, s) =>
        if ¬ SUPPORTED_PXE_VERSIONS.contains version then
          .error (.unsupportedVersion version)
        else
          match read_u32 s with
          | .error e => .error e
          | .ok (count, s) =>
            match readNPCs version count 0 s with
            | .error e => .error e
            | .ok (npcs, _) => .ok npcs

/-- The size in bytes of one PXE record: 12 for the legacy version,
13 (one extra layer byte) for version 0x10. -/
def npcRecordSize (version : Nat) : Nat := if version = 0x10 then 13 else 12

/-- Placeholder record, used only as the default of `List.getD` lookups. -/
def defaultNPC : NPCData := ⟨0, 0, 0, 0, 0, 0, 0, 0⟩

/-- The four little-endian bytes of a 32-bit count. -/
def u32le (n : Nat) : Bytes :=
  [n % 256, n / 256 % 256, n / 65536 % 256, n / 16777216 % 256]

/-- A record whose payload bytes are all zero. -/
def zeroNPC (n : Nat) : NPCData := ⟨n, 0, 0, 0, 0, 0, 0, 0⟩

/-! ### Concrete byte streams used as test inputs -/

/-- A 2x2 PXM stream: magic, version 0x10, width 2, height 2, tiles 1,2,3,4. -/
def md1 : Bytes := [0x50, 0x58, 0x4D, 0x10, 2, 0, 2, 0, 1, 2, 3, 4]

/-- A 5-byte attribute stream. -/
def ad1 : Bytes := [10, 11, 12, 13, 14]

/-- The map decoded from `md1` / `ad1`. -/
def map1 : Map := ⟨2, 2, [1, 2, 3, 4], attribOf ad1⟩

/-- A legacy PXE stream advertising 65367 records, all of whose payload bytes
are zero (65367 * 12 = 784404 body bytes). -/
def pxeBig : Bytes := pxeMagic ++ 0 :: (u32le 65367 ++ List.replicate 784404 0)

/-- The records decoded from `pxeBig`. -/
def pxeBigNPCs : List NPCData :=
  (List.range 65367).map fun j => zeroNPC ((170 + (0 + j)) % 65536)

/-- A legacy PXE stream with three all-zero records. -/
def pxeSmall3 : Bytes := pxeMagic ++ 0 :: (u32le 3 ++ List.replicate 36 0)

/-- The records decoded from `pxeSmall3`. -/
def npcsSmall3 : List NPCData := [zeroNPC 170, zeroNPC 171, zeroNPC 172]

/-- A legacy PXE stream with one all-zero record. -/
def pxeOneLegacy : Bytes := [1, 0, 0, 0] ++ List.replicate 12 0

/-- The bytes of one version-0x10 record with layer byte 7. -/
def rec16bytes : Bytes := List.replicate 12 0 ++ [7]

/-- The record decoded from `rec16bytes`. -/
def oneCurrentNPC : NPCData := ⟨170, 0, 0, 0, 0, 0, 0, 7⟩

/-! ### Basic facts about the field readers -/

theorem read_u8_ok {s : Bytes} {v : Nat} {r : Bytes}
    (h : read_u8 s = .ok (v, r)) : s = v :: r := by
  cases s with
  | nil => simp [read_u8] at h
  | cons b rest =>
    simp only [read_u8, Except.ok.injEq, Prod.mk.injEq] at h
    simp [h.1, h.2]

theorem read_u16_ok {s : Bytes} {v : Nat} {r : Bytes}
    (h : read_u16 s = .ok (v, r)) :
    ∃ b0 b1, s = b0 :: b1 :: r ∧ v = b0 + 256 * b1 := by
  match s with
  | [] => simp [read_u16] at h
  | [b] => simp [read_u16] at h
  | b0 :: b1 :: rest =>
    simp only [read_u16, Except.ok.injEq, Prod.mk.injEq] at h
    exact ⟨b0, b1, by simp [h.1, h.2], h.1.symm⟩

theorem read_i16_ok {s : Bytes} {v : Int} {r : Bytes}
    (h : read_i16 s = .ok (v, r)) : ∃ b0 b1, s = b0 :: b1 :: r := by
  match s with
  | [] => simp [read_i16] at h
  | [b] => simp [read_i16] at h
  | b0 :: b1 :: rest =>
    simp only [read_i16, Except.ok.injEq, Prod.mk.injEq] at h
    exact ⟨b0, b1, by simp [h.2]⟩

theorem read_u32_ok {s : Bytes} {v : Nat} {r : Bytes}
    (h : read_u32 s = .ok (v, r)) :
    ∃ b0 b1 b2 b3, s = b0 :: b1 :: b2 :: b3 :: r ∧
      v = b0 + 256 * b1 + 65536 * b2 + 16777216 * b3 := by
  match s with
  | [] => simp [read_u32] at h
  | [b] => simp [read_u32] at h
  | [b, b'] => simp [read_u32] at h
  | [b, b', b''] => simp [read_u32] at h
  | b0 :: b1 :: b2 :: b3 :: rest =>
    simp only [read_u32, Except.ok.injEq, Prod.mk.injEq] at h
    exact ⟨b0, b1, b2, b3, by simp [h.2], h.1.symm⟩

theorem read_u8_err {s : Bytes} {e : MapError}
    (h : read_u8 s = .error e) : e = .truncatedData := by
  cases s with
  | nil => simpa [read_u8] using h.symm
  | cons b rest => simp [read_u8] at h

theorem read_u16_err {s : Bytes} {e : MapError}
    (h : read_u16 s = .error e) : e = .truncatedData := by
  match s with
  | [] => simpa [read_u16] using h.symm
  | [b] => simpa [read_u16] using h.symm
  | b0 :: b1 :: rest => simp [read_u16] at h

theorem read_i16_err {s : Bytes} {e : MapError}
    (h : read_i16 s = .error e) : e = .truncatedData := by
  match s with
  | [] => simpa [read_i16] using h.symm
  | [b] => simpa [read_i16] using h.symm
  | b0 :: b1 :: rest => simp [read_i16] at h

theorem read_u32_err {s : Bytes} {e : MapError}
    (h : read_u32 s = .error e) : e = .truncatedData := by
  match s with
  | [] => simpa [read_u32] using h.symm
  | [b] => simpa [read_u32] using h.symm
  | [b, b'] => simpa [read_u32] using h.symm
  | [b, b', b''] => simpa [read_u32] using h.symm
  | b0 :: b1 :: b2 :: b3 :: rest => simp [read_u32] at h

theorem readExact_ok {n : Nat} {s p r : Bytes}
    (h : readExact n s = .ok (p, r)) :
    n ≤ s.length ∧ p = s.take n ∧ r = s.drop n := by
  unfold readExact at h
  split at h
  · simp only [Except.ok.injEq, Prod.mk.injEq] at h
    exact ⟨by assumption, h.1.symm, h.2.symm⟩
  · cases h

theorem readExact_err {n : Nat} {s : Bytes} {e : MapError}
    (h : readExact n s = .error e) : e = .truncatedData ∧ s.length < n := by
  unfold readExact at h
  split at h
  · cases h
  · simp only [Except.error.injEq] at h
    exact ⟨h.symm, by omega⟩

theorem readExact_of_le {n : Nat} {s : Bytes} (h : n ≤ s.length) :
    readExact n s = .ok (s.take n, s.drop n) := by
  unfold readExact
  rw [if_pos h]

theorem read_u8_length {s : Bytes} {v : Nat} {r : Bytes}
    (h : read_u8 s = .ok (v, r)) : s.length = r.length + 1 := by
  rw [read_u8_ok h]; rfl

theorem read_u16_length {s : Bytes} {v : Nat} {r : Bytes}
    (h : read_u16 s = .ok (v, r)) : s.length = r.length + 2 := by
  obtain ⟨b0, b1, rfl, -⟩ := read_u16_ok h; rfl

theorem read_i16_length {s : Bytes} {v : Int} {r : Bytes}
    (h : read_i16 s = .ok (v, r)) : s.length = r.length + 2 := by
  obtain ⟨b0, b1, rfl⟩ := read_i16_ok h; rfl

/-! ### Facts about one record read -/

theorem readNPC_ok {version i : Nat} {s : Bytes} {npc : NPCData} {r : Bytes}
    (h : readNPC version i s = .ok (npc, r)) :
    npc.id = (170 + i) % 65536 ∧ s.length = r.length + npcRecordSize version ∧
    (version ≠ 0x10 → npc.layer = 0) := by
  unfold readNPC at h
  split at h <;> try cases h
  rename_i x s1 h1
  split at h <;> try cases h
  rename_i y s2 h2
  split at h <;> try cases h
  rename_i fn s3 h3
  split at h <;> try cases h
  rename_i en s4 h4
  split at h <;> try cases h
  rename_i nt s5 h5
  split at h <;> try cases h
  rename_i fl s6 h6
  split at h
  case _ h7 => cases h
  rename_i ly s7 h7
  simp only [Except.ok.injEq, Prod.mk.injEq] at h
  obtain ⟨rfl, rfl⟩ := h
  have l1 := read_i16_length h1
  have l2 := read_i16_length h2
  have l3 := read_u16_length h3
  have l4 := read_u16_length h4
  have l5 := read_u16_length h5
  have l6 := read_u16_length h6
  by_cases hv : version = 0x10
  · rw [if_pos hv] at h7
    have l7 := read_u8_length h7
    refine ⟨rfl, ?_, fun hc => absurd hv hc⟩
    simp only [npcRecordSize, if_pos hv]
    omega
  · rw [if_neg hv] at h7
    simp only [Except.ok.injEq, Prod.mk.injEq] at h7
    obtain ⟨rfl, rfl⟩ := h7
    refine ⟨rfl, ?_, fun _ => rfl⟩
    simp only [npcRecordSize, if_neg hv]
    omega

theorem readNPC_err {version i : Nat} {s : Bytes} {e : MapError}
    (h : readNPC version i s = .error e) : e = .truncatedData := by
  unfold readNPC at h
  split at h
  case _ h1 => cases h; exact read_i16_err h1
  rename_i x s1 h1
  split at h
  case _ h2 => cases h; exact read_i16_err h2
  rename_i y s2 h2
  split at h
  case _ h3 => cases h; exact read_u16_err h3
  rename_i fn s3 h3
  split at h
  case _ h4 => cases h; exact read_u16_err h4
  rename_i en s4 h4
  split at h
  case _ h5 => cases h; exact read_u16_err h5
  rename_i nt s5 h5
  split at h
  case _ h6 => cases h; exact read_u16_err h6
  rename_i fl s6 h6
  split at h
  case _ h7 =>
    cases h
    by_cases hv : version = 0x10
    · rw [if_pos hv] at h7; exact read_u8_err h7
    · rw [if_neg hv] at h7; cases h7
  rename_i ly s7 h7
  cases h

/-! ### Facts about the record loop -/

theorem readNPCs_err {version : Nat} : ∀ {count i : Nat} {s : Bytes} {e : MapError},
    readNPCs version count i s = .error e → e = .truncatedData := by
  intro count
  induction count with
  | zero => intro i s e h; simp [readNPCs] at h
  | succ c ih =>
    intro i s e h
    unfold readNPCs at h
    split at h
    case _ h1 => cases h; exact readNPC_err h1
    rename_i npc s1 h1
    split at h
    case _ h2 => cases h; exact ih h2
    rename_i npcs s2 h2
    cases h

theorem readNPCs_ok {version : Nat} : ∀ {count i : Nat} {s : Bytes}
    {l : List NPCData} {r : Bytes},
    readNPCs version count i s = .ok (l, r) →
    l.length = count ∧ s.length = r.length + npcRecordSize version * count ∧
    (∀ j, j < count → (l.getD j defaultNPC).id = (170 + (i + j)) % 65536) ∧
    (version ≠ 0x10 → ∀ npc ∈ l, npc.layer = 0) := by
  intro count
  induction count with
  | zero =>
    intro i s l r h
    simp only [readNPCs, Except.ok.injEq, Prod.mk.injEq] at h
    obtain ⟨hl, hr⟩ := h
    subst hl; subst hr
    refine ⟨rfl, by simp, ?_, ?_⟩
    · intro j hj; exact absurd hj (by omega)
    · intro _ npc hm; simp at hm
  | succ c ih =>
    intro i s l r h
    unfold readNPCs at h
    split at h
    case _ h1 => cases h
    rename_i npc s1 h1
    split at h
    case _ h2 => cases h
    rename_i npcs s2 h2
    simp only [Except.ok.injEq, Prod.mk.injEq] at h
    obtain ⟨hl, hr⟩ := h
    subst hl hr
    obtain ⟨hid, hlen, hlay⟩ := readNPC_ok h1
    obtain ⟨ihlen, ihslen, ihids, ihlay⟩ := ih h2
    refine ⟨by simp [ihlen], by rw [Nat.mul_succ]; omega, ?_, ?_⟩
    · intro j hj
      cases j with
      | zero => simpa using hid
      | succ j' =>
        have := ihids j' (by omega)
        simpa [Nat.add_assoc, Nat.add_comm 1 j', Nat.add_left_comm] using this
    · intro hv npc' hm
      cases hm with
      | head => exact hlay hv
      | tail _ hm' => exact ihlay hv npc' hm'

theorem readNPCs_short {version : Nat} : ∀ {count i : Nat} {s : Bytes},
    s.length < npcRecordSize version * count →
    readNPCs version count i s = .error .truncatedData := by
  intro count
  induction count with
  | zero => intro i s h; simp at h
  | succ c ih =>
    intro i s h
    unfold readNPCs
    cases h1 : readNPC version i s with
    | error e => rw [readNPC_err h1]
    | ok p =>
      obtain ⟨npc, s1⟩ := p
      obtain ⟨-, hlen, -⟩ := readNPC_ok h1
      have hs1 : s1.length < npcRecordSize version * c := by
        rw [Nat.mul_succ] at h; omega
      show (match readNPCs version c (i + 1) s1 with
            | .error e => .error e
            | .ok (npcs, s) => Except.ok (npc :: npcs, s)) =
          Except.error MapError.truncatedData
      rw [ih hs1]

/-! ### Structure of successful and failing top-level decodes -/

theorem attribOf_length (ad : Bytes) : (attribOf ad).length = 256 := by
  simp [attribOf]
  omega

theorem attribOf_of_short {ad : Bytes} (h : ad.length ≤ 256) :
    attribOf ad = ad ++ List.replicate (256 - ad.length) 0 := by
  unfold attribOf
  rw [List.take_of_length_le h]

theorem readExact_cons3 (a b c : Nat) (t : Bytes) :
    readExact 3 (a :: b :: c :: t) = .ok ([a, b, c], t) := by
  have h3 : 3 ≤ (a :: b :: c :: t).length := by simp
  rw [readExact_of_le h3]
  rfl

/-- Peeling the header of `NPCData::load_from` off a stream with the right
magic and a supported version byte. -/
theorem NPC_load_unfold (version : Nat) (t : Bytes)
    (hv : SUPPORTED_PXE_VERSIONS.contains version = true) :
    NPCData.load_from (pxeMagic ++ version :: t) =
      match read_u32 t with
      | .error e => .error e
      | .ok (count, s) =>
        match readNPCs version count 0 s with
        | .error e => .error e
        | .ok (npcs, _) => .ok npcs := by
  have hm : pxeMagic ++ version :: t = 0x50 :: 0x58 :: 0x45 :: version :: t := rfl
  have hv' : version ∈ SUPPORTED_PXE_VERSIONS := by simpa using hv
  rw [NPCData.load_from, hm, readExact_cons3]
  simp [pxeMagic, read_u8, hv']

/-- Peeling the header of `Map::load_from` off a stream with the right magic,
the supported version and explicit dimension bytes. -/
theorem Map_load_unfold (b0 b1 c0 c1 : Nat) (t ad : Bytes) :
    Map.load_from (0x50 :: 0x58 :: 0x4D :: 0x10 :: b0 :: b1 :: c0 :: c1 :: t) ad =
      match readExact ((b0 + 256 * b1) * (c0 + 256 * c1)) t with
      | .error e => .error e
      | .ok (tiles, _) =>
        .ok ⟨b0 + 256 * b1, c0 + 256 * c1, tiles, attribOf ad⟩ := by
  rw [Map.load_from, readExact_cons3]
  simp [pxmMagic, read_u8, read_u16, SUPPORTED_PXM_VERSIONS]

/-- Inversion of a successful `Map::load_from`: the exact shape of the input
header and of the resulting `Map`. -/
theorem Map.load_from_ok {md ad : Bytes} {m : Map}
    (h : Map.load_from md ad = .ok m) :
    ∃ b0 b1 c0 c1 t,
      md = 0x50 :: 0x58 :: 0x4D :: 0x10 :: b0 :: b1 :: c0 :: c1 :: t ∧
      m.width = b0 + 256 * b1 ∧ m.height = c0 + 256 * c1 ∧
      m.tiles = t.take (m.width * m.height) ∧
      m.width * m.height ≤ t.length ∧
      m.attrib = attribOf ad := by
  unfold Map.load_from at h
  split at h
  case _ => cases h
  rename_i magic s hre
  obtain ⟨h3, hp, hs⟩ := readExact_ok hre
  split at h
  case _ => cases h
  rename_i hmagic
  split at h
  case _ => cases h
  rename_i version s2 h8
  split at h
  case _ => cases h
  rename_i hver
  split at h
  case _ => cases h
  rename_i width s3 hw
  split at h
  case _ => cases h
  rename_i height s4 hh
  split at h
  case _ => cases h
  rename_i tiles s5 hex
  simp only [Except.ok.injEq] at h
  subst h
  have hmagic' : magic = pxmMagic := not_not.mp hmagic
  have hver' : version = 0x10 := by
    simpa [SUPPORTED_PXM_VERSIONS] using not_not.mp hver
  obtain ⟨b0, b1, hs2, hwv⟩ := read_u16_ok hw
  obtain ⟨c0, c1, hs3, hhv⟩ := read_u16_ok hh
  obtain ⟨hle, hpv, hrv⟩ := readExact_ok hex
  refine ⟨b0, b1, c0, c1, s4, ?_, hwv, hhv, ?_, ?_, rfl⟩
  · have hmd := (List.take_append_drop 3 md).symm
    rw [← hp, ← hs, hmagic', read_u8_ok h8, hver', hs2, hs3] at hmd
    simpa [pxmMagic] using hmd
  · simpa [hwv, hhv] using hpv
  · simpa [hwv, hhv] using hle

theorem read_u32_u32le (n : Nat) (hn : n < 4294967296) (t : Bytes) :
    read_u32 (u32le n ++ t) = .ok (n, t) := by
  simp only [u32le, List.cons_append, List.nil_append, read_u32,
    Except.ok.injEq, Prod.mk.injEq]
  refine ⟨by omega, by simp⟩

theorem readNPC_legacy_zeros (i m : Nat) :
    readNPC 0 i (List.replicate (m + 12) 0) =
      .ok (zeroNPC ((170 + i) % 65536), List.replicate m 0) := rfl

theorem readNPCs_legacy_zeros : ∀ (count i k : Nat),
    readNPCs 0 count i (List.replicate (12 * count + k) 0) =
      .ok ((List.range count).map fun j => zeroNPC ((170 + (i + j)) % 65536),
           List.replicate k 0) := by
  intro count
  induction count with
  | zero => intro i k; simp [readNPCs]
  | succ c ih =>
    intro i k
    have h12 : 12 * (c + 1) + k = (12 * c + k) + 12 := by ring
    rw [h12]
    show (match readNPC 0 i (List.replicate (12 * c + k + 12) 0) with
          | .error e => Except.error e
          | .ok (npc, s) =>
            match readNPCs 0 c (i + 1) s with
            | .error e => Except.error e
            | .ok (npcs, s) => Except.ok (npc :: npcs, s)) = _
    rw [readNPC_legacy_zeros i (12 * c + k)]
    show (match readNPCs 0 c (i + 1) (List.replicate (12 * c + k) 0) with
          | .error e => Except.error e
          | .ok (npcs, s) =>
            Except.ok (zeroNPC ((170 + i) % 65536) :: npcs, s)) = _
    rw [ih (i + 1) k]
    simp only [Except.ok.injEq, Prod.mk.injEq, List.range_succ_eq_map,
      List.map_cons, List.map_map]
    refine ⟨?_, trivial⟩
    rw [List.cons.injEq]
    refine ⟨by simp, List.map_congr_left ?_⟩
    intro j hj
    show zeroNPC ((170 + (i + 1 + j)) % 65536) =
      zeroNPC ((170 + (i + (j + 1))) % 65536)
    congr 1
    omega

/-- In a version-0x10 record read, the layer byte is the 13th byte of the
input. -/
theorem readNPC_layer16 {i : Nat} {s : Bytes} {npc : NPCData} {r : Bytes}
    (h : readNPC 0x10 i s = .ok (npc, r)) : npc.layer = s.getD 12 0 := by
  unfold readNPC at h
  split at h <;> try cases h
  rename_i x s1 h1
  split at h <;> try cases h
  rename_i y s2 h2
  split at h <;> try cases h
  rename_i fn s3 h3
  split at h <;> try cases h
  rename_i en s4 h4
  split at h <;> try cases h
  rename_i nt s5 h5
  split at h <;> try cases h
  rename_i fl s6 h6
  split at h
  case _ h7 => cases h
  rename_i ly s7 h7
  simp only [Except.ok.injEq, Prod.mk.injEq] at h
  obtain ⟨rfl, rfl⟩ := h
  rw [if_pos rfl] at h7
  obtain ⟨a0, a1, rfl⟩ := read_i16_ok h1
  obtain ⟨a2, a3, rfl⟩ := read_i16_ok h2
  obtain ⟨a4, a5, rfl, -⟩ := read_u16_ok h3
  obtain ⟨a6, a7, rfl, -⟩ := read_u16_ok h4
  obtain ⟨a8, a9, rfl, -⟩ := read_u16_ok h5
  obtain ⟨a10, a11, rfl, -⟩ := read_u16_ok h6
  rw [read_u8_ok h7]
  rfl

/-- Inversion of a successful `NPCData::load_from`: the record ids follow the
loop index. -/
theorem NPC_load_ids {d : Bytes} {l : List NPCData}
    (h : NPCData.load_from d = .ok l) :
    ∀ j, j < l.length → (l.getD j defaultNPC).id = (170 + j) % 65536 := by
  unfold NPCData.load_from at h
  split at h
  case _ => cases h
  rename_i magic s hre
  split at h
  case _ => cases h
  rename_i hmagic
  split at h
  case _ => cases h
  rename_i version s2 h8
  split at h
  case _ => cases h
  rename_i hver
  split at h
  case _ => cases h
  rename_i count s3 h32
  split at h
  case _ => cases h
  rename_i npcs s4 hnp
  simp only [Except.ok.injEq] at h
  subst h
  obtain ⟨hlen, -, hids, -⟩ := readNPCs_ok hnp
  intro j hj
  have := hids j (by omega)
  simpa using this

/-- Inversion of a successful `NPCData::load_from` on a legacy stream: every
record's layer is zero. -/
theorem NPC_load_legacy_layers {rest : Bytes} {l : List NPCData}
    (h : NPCData.load_from (pxeMagic ++ 0 :: rest) = .ok l) :
    ∀ npc ∈ l, npc.layer = 0 := by
  rw [NPC_load_unfold 0 rest (by decide)] at h
  split at h
  case _ => cases h
  rename_i count s h32
  split at h
  case _ => cases h
  rename_i npcs s2 hnp
  simp only [Except.ok.injEq] at h
  subst h
  obtain ⟨-, -, -, hlay⟩ := readNPCs_ok hnp
  exact hlay (by decide)

/-! ### Claim theorems -/

/-- C1 (counterexample): on the decoded 2x2 map from `md1`/`ad1`, the
coordinate (3, 0) lies outside `[0, width) x [0, height)` (since `3 ≥ width`),
yet `get_attribute` returns `attrib[tiles[3]] = attrib[4] = 14`, not
`attrib[0] = 10`: the linear index `width * 0 + 3 = 3` wraps into the tile
grid instead of falling out of bounds. -/
theorem C1_counterexample :
    Map.load_from md1 ad1 = .ok map1 ∧ map1.width ≤ 3 ∧
    map1.get_attribute 3 0 ≠ map1.attrib.getD 0 0 :=
  ⟨rfl, by decide, by decide⟩

/-- C1 (amended): for every successfully decoded map, `get_attribute`
returns `attrib[0]` (in release builds, whose wrapping `usize` semantics the
embedding models) at every coordinate whose wrapped linear index
`(width * y + x) mod 2^64` falls outside the tile grid — in particular at
every `y ≥ height` small enough that `width * y + x` does not overflow
`usize`; coordinates whose wrapped linear index lands below
`width * height` instead return the attribute of the tile at that wrapped
index, and in a debug build an overflowing index computation panics rather
than returning at all. -/
theorem C1_attribute_default {md ad : Bytes} {m : Map} {x y : Nat}
    (h : Map.load_from md ad = .ok m)
    (hout : m.width * m.height ≤ (m.width * y + x) % usizeMod) :
    m.get_attribute x y = m.attrib.getD 0 0 := by
  obtain ⟨b0, b1, c0, c1, t, -, -, -, htiles, hle, -⟩ := Map.load_from_ok h
  have hlen : m.tiles.length = m.width * m.height := by
    rw [htiles, List.length_take]
    omega
  unfold Map.get_attribute
  rw [List.getD_eq_getElem?_getD m.tiles ((m.width * y + x) % usizeMod) 0,
    List.getElem?_eq_none (by omega)]
  rfl

/-- C1 (witness): on the decoded 2x2 map from `md1`/`ad1`, the coordinate
(0, 5) has `y ≥ height` with a non-overflowing index, and `get_attribute`
returns `attrib[0]`. -/
theorem C1_witness : map1.get_attribute 0 5 = map1.attrib.getD 0 0 :=
  C1_attribute_default (show Map.load_from md1 ad1 = .ok map1 from rfl)
    (by decide)

/-- C3: when a tile-map decode succeeds, its attribute table consists of the
supplied attribute bytes (here fewer than 256) followed by zeros, and the
success of the decode never depends on the attribute stream at all. -/
theorem C3_short_attrib {md ad : Bytes} {m : Map}
    (h : Map.load_from md ad = .ok m) (hk : ad.length < 256) :
    m.attrib = ad ++ List.replicate (256 - ad.length) 0 ∧
    ∀ ad', ∃ m', Map.load_from md ad' = .ok m' := by
  obtain ⟨b0, b1, c0, c1, t, hmd, hw, hh, -, hle, hattr⟩ := Map.load_from_ok h
  constructor
  · rw [hattr, attribOf_of_short (le_of_lt hk)]
  · intro ad'
    have hle' : (b0 + 256 * b1) * (c0 + 256 * c1) ≤ t.length := by
      rw [← hw, ← hh]
      exact hle
    refine ⟨⟨b0 + 256 * b1, c0 + 256 * c1,
      t.take ((b0 + 256 * b1) * (c0 + 256 * c1)), attribOf ad'⟩, ?_⟩
    rw [hmd, Map_load_unfold, readExact_of_le hle']

/-- C3 (witness): the 5-byte attribute stream `ad1` yields the first five
attribute entries 10..14 and zeros beyond. -/
theorem C3_witness :
    map1.attrib = ad1 ++ List.replicate (256 - ad1.length) 0 :=
  (C3_short_attrib (show Map.load_from md1 ad1 = .ok map1 from rfl)
    (by decide)).1

/-- C4: every successfully decoded map satisfies
`tiles.len() = width * height` and `attrib.len() = 256`, where `width` and
`height` are the little-endian 16-bit values at byte offsets 4-5 and 6-7 of
the tile stream. -/
theorem C4_decoded_shape {md ad : Bytes} {m : Map}
    (h : Map.load_from md ad = .ok m) :
    m.tiles.length = m.width * m.height ∧ m.attrib.length = 256 ∧
    m.width = md.getD 4 0 + 256 * md.getD 5 0 ∧
    m.height = md.getD 6 0 + 256 * md.getD 7 0 := by
  obtain ⟨b0, b1, c0, c1, t, hmd, hw, hh, htiles, hle, hattr⟩ :=
    Map.load_from_ok h
  refine ⟨?_, ?_, ?_, ?_⟩
  · rw [htiles, List.length_take]
    omega
  · rw [hattr]
    exact attribOf_length ad
  · rw [hmd, hw]
    rfl
  · rw [hmd, hh]
    rfl

/-- C4 (witness): the map decoded from `md1`/`ad1` has 4 = 2 * 2 tiles,
256 attribute entries, and dimensions read from bytes 4-7 of `md1`. -/
theorem C4_witness :
    map1.tiles.length = map1.width * map1.height ∧
    map1.attrib.length = 256 ∧
    map1.width = md1.getD 4 0 + 256 * md1.getD 5 0 ∧
    map1.height = md1.getD 6 0 + 256 * md1.getD 7 0 :=
  C4_decoded_shape (show Map.load_from md1 ad1 = .ok map1 from rfl)

/-- C7: a PXM stream whose header declares dimensions `(b0 + 256*b1,
c0 + 256*c1)` but whose body has fewer than `width * height` tile bytes fails
with the truncated-data error, for any attribute stream. -/
theorem C7_truncated_tiles (b0 b1 c0 c1 : Nat) (t ad : Bytes)
    (h : t.length < (b0 + 256 * b1) * (c0 + 256 * c1)) :
    Map.load_from (0x50 :: 0x58 :: 0x4D :: 0x10 :: b0 :: b1 :: c0 :: c1 :: t)
      ad = .error .truncatedData := by
  rw [Map_load_unfold]
  unfold readExact
  rw [if_neg (by omega)]

/-- C7 (witness): a 2x2 map with only 3 tile bytes fails with
truncated data. -/
theorem C7_witness :
    ([0, 0, 0] : Bytes).length < (2 + 256 * 0) * (2 + 256 * 0) ∧
    Map.load_from [0x50, 0x58, 0x4D, 0x10, 2, 0, 2, 0, 0, 0, 0] [] =
      .error .truncatedData :=
  ⟨by decide, C7_truncated_tiles 2 0 2 0 [0, 0, 0] [] (by decide)⟩

/-- C8: any byte source at least 3 bytes long whose first 3 bytes differ from
the expected tag fails with the invalid-magic error, for the tile-map decoder
and the entity decoder alike. -/
theorem C8_invalid_magic (b ad : Bytes) (h3 : 3 ≤ b.length) :
    (b.take 3 ≠ pxmMagic → Map.load_from b ad = .error .invalidMagic) ∧
    (b.take 3 ≠ pxeMagic → NPCData.load_from b = .error .invalidMagic) := by
  constructor
  · intro hm
    unfold Map.load_from
    rw [readExact_of_le h3]
    simp [hm]
  · intro hm
    unfold NPCData.load_from
    rw [readExact_of_le h3]
    simp [hm]

/-- C8 (witness): the stream `"XXX"` is rejected by both decoders. -/
theorem C8_witness :
    Map.load_from [0x58, 0x58, 0x58] [] = .error .invalidMagic ∧
    NPCData.load_from [0x58, 0x58, 0x58] = .error .invalidMagic :=
  ⟨(C8_invalid_magic [0x58, 0x58, 0x58] [] (by decide)).1 (by decide),
   (C8_invalid_magic [0x58, 0x58, 0x58] [] (by decide)).2 (by decide)⟩

/-- C9: after a correct magic tag, a version byte outside the supported set
(`[0x10]` for PXM, `[0, 0x10]` for PXE) fails with the unsupported-version
error carrying that version byte, regardless of the remaining bytes. -/
theorem C9_unsupported_version (v : Nat) (t ad : Bytes) :
    (¬ SUPPORTED_PXM_VERSIONS.contains v →
      Map.load_from (pxmMagic ++ v :: t) ad = .error (.unsupportedVersion v)) ∧
    (¬ SUPPORTED_PXE_VERSIONS.contains v →
      NPCData.load_from (pxeMagic ++ v :: t) =
        .error (.unsupportedVersion v)) := by
  constructor
  · intro hv
    have hm : pxmMagic ++ v :: t = 0x50 :: 0x58 :: 0x4D :: v :: t := rfl
    rw [Map.load_from, hm, readExact_cons3]
    simp only [pxmMagic, read_u8]
    rw [if_neg (by decide), if_pos (by simpa using hv)]
  · intro hv
    have hm : pxeMagic ++ v :: t = 0x50 :: 0x58 :: 0x45 :: v :: t := rfl
    rw [NPCData.load_from, hm, readExact_cons3]
    simp only [pxeMagic, read_u8]
    rw [if_neg (by decide), if_pos (by simpa using hv)]

/-- C9 (witness): version byte 0x42 is rejected by both decoders with
`unsupportedVersion 0x42`, even with plausible bytes following. -/
theorem C9_witness :
    Map.load_from (pxmMagic ++ 0x42 :: [2, 0, 2, 0, 1, 2, 3, 4]) [] =
      .error (.unsupportedVersion 0x42) ∧
    NPCData.load_from (pxeMagic ++ 0x42 :: [0, 0, 0, 0]) =
      .error (.unsupportedVersion 0x42) :=
  ⟨(C9_unsupported_version 0x42 [2, 0, 2, 0, 1, 2, 3, 4] []).1 (by decide),
   (C9_unsupported_version 0x42 [0, 0, 0, 0] []).2 (by decide)⟩

/-- C10: a PXM stream whose header declares `width = 0` or `height = 0`
decodes successfully with no bytes after the 8-byte header and an empty
attribute stream, producing an empty tile grid and a 256-entry attribute
table. -/
theorem C10_zero_area (b0 b1 c0 c1 : Nat)
    (hz : b0 + 256 * b1 = 0 ∨ c0 + 256 * c1 = 0) :
    ∃ m, Map.load_from [0x50, 0x58, 0x4D, 0x10, b0, b1, c0, c1] [] = .ok m ∧
      m.tiles = [] ∧ m.attrib.length = 256 ∧
      m.width = b0 + 256 * b1 ∧ m.height = c0 + 256 * c1 := by
  have harea : (b0 + 256 * b1) * (c0 + 256 * c1) = 0 := by
    rcases hz with h | h <;> simp [h]
  have hlist : ([0x50, 0x58, 0x4D, 0x10, b0, b1, c0, c1] : Bytes) =
      0x50 :: 0x58 :: 0x4D :: 0x10 :: b0 :: b1 :: c0 :: c1 :: [] := rfl
  refine ⟨⟨b0 + 256 * b1, c0 + 256 * c1, [], attribOf []⟩, ?_, rfl,
    attribOf_length [], rfl, rfl⟩
  rw [hlist, Map_load_unfold, harea]
  rfl

/-- C10 (witness): a 5x0 map with an empty body decodes to an empty tile
grid. -/
theorem C10_witness :
    ∃ m, Map.load_from [0x50, 0x58, 0x4D, 0x10, 5, 0, 0, 0] [] = .ok m ∧
      m.tiles = [] ∧ m.attrib.length = 256 ∧
      m.width = 5 + 256 * 0 ∧ m.height = 0 + 256 * 0 :=
  C10_zero_area 5 0 0 0 (Or.inr (by decide))

/-- C5: a PXE stream with a correct header advertising `count` records whose
body is even one byte short of `count` full records fails with the
truncated-data error; no partial record list is returned. -/
theorem C5_truncated_entities (version count : Nat) (body : Bytes)
    (hv : SUPPORTED_PXE_VERSIONS.contains version = true)
    (hc : count < 4294967296)
    (hshort : body.length < npcRecordSize version * count) :
    NPCData.load_from (pxeMagic ++ version :: (u32le count ++ body)) =
      .error .truncatedData := by
  rw [NPC_load_unfold version (u32le count ++ body) hv,
    read_u32_u32le count hc body]
  show (match readNPCs version count 0 body with
        | .error e => Except.error e
        | .ok (npcs, _) => Except.ok npcs) =
      Except.error MapError.truncatedData
  rw [readNPCs_short hshort]

/-- C5 (witness): a version-0x10 stream advertising 5 records with only 64
body bytes (one short of 5 * 13) fails with truncated data. -/
theorem C5_witness :
    (List.replicate 64 (0 : Nat) : Bytes).length < npcRecordSize 0x10 * 5 ∧
    NPCData.load_from (pxeMagic ++ 0x10 :: (u32le 5 ++ List.replicate 64 0)) =
      .error .truncatedData :=
  ⟨by decide,
   C5_truncated_entities 0x10 5 (List.replicate 64 0) (by decide) (by decide)
     (by decide)⟩

/-- C6: decoding a legacy (version 0) entity stream sets every record's layer
to 0, and a legacy record read consumes exactly 12 bytes (no layer byte); a
version-0x10 record read consumes exactly 13 bytes and stores its 13th input
byte as the record's layer. -/
theorem C6_layer_versions :
    (∀ rest l, NPCData.load_from (pxeMagic ++ 0 :: rest) = .ok l →
      ∀ npc ∈ l, npc.layer = 0) ∧
    (∀ i s npc r, readNPC 0 i s = .ok (npc, r) → r.length + 12 = s.length) ∧
    (∀ i s npc r, readNPC 0x10 i s = .ok (npc, r) →
      npc.layer = s.getD 12 0 ∧ r.length + 13 = s.length) := by
  refine ⟨?_, ?_, ?_⟩
  · intro rest l h
    exact NPC_load_legacy_layers h
  · intro i s npc r h
    have hc := (readNPC_ok h).2.1
    simp [npcRecordSize] at hc
    omega
  · intro i s npc r h
    refine ⟨readNPC_layer16 h, ?_⟩
    have hc := (readNPC_ok h).2.1
    simp [npcRecordSize] at hc
    omega

/-- C6 (witness): applied to a one-record legacy stream (layer 0, 12 bytes
consumed) and a one-record version-0x10 read (layer byte 7, 13 bytes
consumed). -/
theorem C6_witness :
    (∀ npc ∈ [zeroNPC 170], npc.layer = 0) ∧
    (([] : Bytes).length + 12 = (List.replicate 12 (0 : Nat)).length) ∧
    (oneCurrentNPC.layer = rec16bytes.getD 12 0 ∧
      ([] : Bytes).length + 13 = rec16bytes.length) :=
  ⟨C6_layer_versions.1 pxeOneLegacy [zeroNPC 170] rfl,
   C6_layer_versions.2.1 0 (List.replicate 12 0) (zeroNPC 170) [] rfl,
   C6_layer_versions.2.2 0 rec16bytes oneCurrentNPC [] rfl⟩

/-- Peeling the whole header of `NPCData::load_from`, count field included. -/
theorem NPC_load_unfold2 (version count : Nat) (body : Bytes)
    (hv : SUPPORTED_PXE_VERSIONS.contains version = true)
    (hc : count < 4294967296) :
    NPCData.load_from (pxeMagic ++ version :: (u32le count ++ body)) =
      match readNPCs version count 0 body with
      | .error e => .error e
      | .ok (npcs, _) => .ok npcs := by
  rw [NPC_load_unfold version (u32le count ++ body) hv,
    read_u32_u32le count hc body]

/-- Decoding the 65367-record all-zero legacy stream succeeds and yields the
expected record list. -/
theorem pxeBig_decode : NPCData.load_from pxeBig = .ok pxeBigNPCs := by
  show NPCData.load_from
    (pxeMagic ++ 0 :: (u32le 65367 ++ List.replicate 784404 0)) = _
  rw [NPC_load_unfold2 0 65367 (List.replicate 784404 0) (by decide)
      (by norm_num),
    show (784404 : Nat) = 12 * 65367 + 0 from by norm_num,
    readNPCs_legacy_zeros 65367 0 0]
  rfl

/-- The `n`-th record of the decoded big stream. -/
theorem pxeBigNPCs_getD {n : Nat} (hn : n < 65367) :
    pxeBigNPCs.getD n defaultNPC = zeroNPC ((170 + n) % 65536) := by
  unfold pxeBigNPCs
  rw [List.getD_eq_getElem?_getD, List.getElem?_map, List.getElem?_range hn]
  simp

/-- C2 (counterexample): the legacy stream `pxeBig` advertising 65367 records
decodes successfully, but `id = 170 + i as u16` wraps at 16 bits: record
65365 has id 65535 while record 65366 has id 0, so the ids are neither
`BASE_ID + i` throughout nor strictly increasing in file order. -/
theorem C2_counterexample :
    NPCData.load_from pxeBig = .ok pxeBigNPCs ∧
    pxeBigNPCs.length = 65367 ∧
    (pxeBigNPCs.getD 65365 defaultNPC).id = 65535 ∧
    (pxeBigNPCs.getD 65366 defaultNPC).id = 0 ∧
    ¬ (pxeBigNPCs.getD 65365 defaultNPC).id <
        (pxeBigNPCs.getD 65366 defaultNPC).id := by
  refine ⟨pxeBig_decode, ?_, ?_, ?_, ?_⟩
  · unfold pxeBigNPCs
    simp
  · rw [pxeBigNPCs_getD (by norm_num)]
    rfl
  · rw [pxeBigNPCs_getD (by norm_num)]
    rfl
  · rw [pxeBigNPCs_getD (by norm_num), pxeBigNPCs_getD (by norm_num)]
    decide

/-- C2 (amended): the decoded ids are `(BASE_ID + i) mod 2^16` with
`BASE_ID = 170`; whenever the record count is at most 65366 — so that
`BASE_ID + count - 1` still fits in a `u16` — they are exactly
`BASE_ID, ..., BASE_ID + count - 1`, strictly increasing in file order and
unique; for larger counts the ids wrap modulo 65536. -/
theorem C2_entity_ids {d : Bytes} {l : List NPCData}
    (h : NPCData.load_from d = .ok l) (hlen : l.length ≤ 65366) :
    (∀ j, j < l.length → (l.getD j defaultNPC).id = 170 + j) ∧
    (∀ j k, j < k → k < l.length →
      (l.getD j defaultNPC).id < (l.getD k defaultNPC).id) := by
  have hids := NPC_load_ids h
  have hids' : ∀ j, j < l.length → (l.getD j defaultNPC).id = 170 + j := by
    intro j hj
    rw [hids j hj, Nat.mod_eq_of_lt (by omega)]
  refine ⟨hids', ?_⟩
  intro j k hjk hk
  rw [hids' j (by omega), hids' k hk]
  omega

/-- C2 (witness): a 3-record legacy stream gets ids 170, 171, 172, strictly
increasing. -/
theorem C2_witness :
    npcsSmall3.length ≤ 65366 ∧
    (npcsSmall3.getD 1 defaultNPC).id = 170 + 1 ∧
    (npcsSmall3.getD 0 defaultNPC).id < (npcsSmall3.getD 2 defaultNPC).id :=
  ⟨by decide,
   (C2_entity_ids
     (show NPCData.load_from pxeSmall3 = .ok npcsSmall3 from rfl)
     (by decide)).1 1 (by decide),
   (C2_entity_ids
     (show NPCData.load_from pxeSmall3 = .ok npcsSmall3 from rfl)
     (by decide)).2 0 2 (by decide) (by decide)⟩

end Doukutsu
